import Mathlib

/-!
Shallow embedding of the daily-verse selection core of the `kjv` repository.

Source of truth:
  * `src/app/models/verse.py`        — the `Verse` table (catalog Entry)
  * `src/app/models/daily_selection.py` — the `DailySelection` table (Assignment)
  * `src/app/services/selection.py`  — `VerseSelector` (the Selector)
  * `src/app/core/config.py`         — `Settings.seed` (process-wide seed default)

Modelling decisions:
  * Calendar dates are `Nat` (only equality and ordering of dates matter).
  * The database session is a pair of lists: the verse catalog and the list of
    `daily_selections` rows, in insertion order (SQLite returns rows in
    insertion order for the unordered queries the service issues).
  * Python's `random.Random` (library code, not part of the repository) is
    modelled as a stream of naturals plus a cursor.  A seeded source gets a
    deterministic stream computed from the seed (`mtStream`, a stand-in for
    the Mersenne Twister — only determinism-in-the-seed is relied upon); an
    unseeded source (`random.Random(None)`) draws OS entropy, modelled as an
    explicit `entropy` stream supplied by the environment.
    `Random.choice(pool)` returns `pool[draw % len(pool)]` and advances the
    cursor by one; the uniform distribution itself is not modelled, only
    membership, determinism and consumption.
  * Python exceptions are `Except` values; `raise ValueError("All verses
    exhausted…")` is `SelErr.exhausted`, an `IntegrityError` from the unique
    constraint `uq_date` on commit is `SelErr.conflict`, the `assert verse is
    not None` is `SelErr.assertFailed`, and `random.choice` on an empty
    sequence is `SelErr.indexError`.
-/

namespace KJV

/-- `Verse` row of `src/app/models/verse.py`: surrogate id, grouping key
(book, chapter), sub-index `verse`, text payload. -/
structure Verse where
  id : Nat
  book : String
  chapter : Nat
  verse : Nat
  text_kjv : String
deriving DecidableEq, Repr

/-- `DailySelection` row of `src/app/models/daily_selection.py`: binds one
date to one verse id.  The surrogate key and `created_at` timestamp play no
role in the selection logic and are omitted. -/
structure DailySelection where
  date : Nat
  verse_id : Nat
deriving DecidableEq, Repr

/-- The relational store visible to the Selector: the verse catalog and the
`daily_selections` table. -/
structure Db where
  verses : List Verse
  selections : List DailySelection
deriving DecidableEq, Repr

/-- `db.scalar(select(DailySelection).where(DailySelection.date == target_date))`
(selection.py lines 27–29). -/
def findSelection (db : Db) (d : Nat) : Option DailySelection :=
  db.selections.find? (fun s => decide (s.date = d))

/-- `used_ids = {id_ for (id_,) in self.db.execute(select(DailySelection.verse_id)).all()}`
(selection.py line 41); kept as a list, used only through membership. -/
def usedIds (db : Db) : List Nat :=
  db.selections.map (fun s => s.verse_id)

/-- `self.db.scalar(select(DailySelection).order_by(DailySelection.date.desc()))`
(selection.py lines 43–45): a row of maximum date, `none` on an empty table. -/
def lastSelection (db : Db) : Option DailySelection :=
  db.selections.foldl
    (fun acc s =>
      match acc with
      | none => some s
      | some t => if t.date < s.date then some s else acc)
    none

/-- `self.db.scalar(select(Verse).where(Verse.id == i))` (selection.py
lines 48, 63). -/
def findVerse (db : Db) (i : Nat) : Option Verse :=
  db.verses.find? (fun v => decide (v.id = i))

/-- `last_chapter` (selection.py lines 46–50): the (book, chapter) group key
of the verse of the maximum-date selection, when both exist. -/
def lastChapter (db : Db) : Option (String × Nat) :=
  match lastSelection db with
  | none => none
  | some sel =>
    match findVerse db sel.verse_id with
    | none => none
    | some v => some (v.book, v.chapter)

/-- `candidates = …select(Verse…).where(~Verse.id.in_(used_ids))`
(selection.py lines 53–55): catalog rows whose id is unused. -/
def candidates (db : Db) : List Verse :=
  db.verses.filter (fun v => decide (v.id ∉ usedIds db))

/-- `filtered = [c for c in candidates if (c.book, c.chapter) != last_chapter]`
(selection.py line 60).  When `last_chapter` is Python `None` the comparison
is always true, matching `some (…) ≠ none`. -/
def filteredCands (db : Db) : List Verse :=
  (candidates db).filter (fun v => decide (some (v.book, v.chapter) ≠ lastChapter db))

/-- `pool = filtered if filtered else candidates` (selection.py line 61). -/
def pool (db : Db) : List Verse :=
  if (filteredCands db).isEmpty then candidates db else filteredCands db

/-- State of a `random.Random` instance: the stream of draws and a cursor. -/
structure Rng where
  stream : Nat → Nat
  idx : Nat

/-- `self.random.choice(seq)`: `none` on an empty sequence (Python raises
`IndexError`), otherwise the element at `draw mod length` with the cursor
advanced. -/
def rngChoice {α : Type} (r : Rng) : List α → Option (α × Rng)
  | [] => none
  | a :: rest =>
    some ((a :: rest).getD (r.stream r.idx % (a :: rest).length) a,
          { r with idx := r.idx + 1 })

/-- The exceptions the Selector can raise. -/
inductive SelErr
  | exhausted
  | conflict
  | indexError
  | assertFailed
deriving DecidableEq, Repr

/-- `VerseSelector._pick_new_verse` (selection.py lines 39–65). -/
def pick_new_verse (db : Db) (rng : Rng) : Except SelErr (Verse × Rng) :=
  if (candidates db).isEmpty then
    Except.error SelErr.exhausted
  else
    match rngChoice rng (pool db) with
    | none => Except.error SelErr.indexError
    | some (c, rng') =>
      match findVerse db c.id with
      | none => Except.error SelErr.assertFailed
      | some v => Except.ok (v, rng')

/-- `self.db.add(selection); self.db.commit()` (selection.py lines 34–35):
the unique constraint `uq_date` on `daily_selections.date` makes the commit
fail with an `IntegrityError` when a row for that date already exists. -/
def insertSelection (db : Db) (sel : DailySelection) : Except SelErr Db :=
  if (findSelection db sel.date).isSome then Except.error SelErr.conflict
  else Except.ok { db with selections := db.selections ++ [sel] }

/-- `VerseSelector.get_for_date` (selection.py lines 26–37), with the read
phase (lookup and pick) and the write phase (insert) taking separate store
states so that a concurrent insert landing between the two phases can be
expressed: the sequential call is `get_for_date`, which instantiates both
phases with the same state.  An exception leaves the store untouched and
propagates (there is no `try`/`except` in the source). -/
def get_for_date_core (readDb writeDb : Db) (rng : Rng) (d : Nat) :
    Except SelErr DailySelection × Db × Rng :=
  match findSelection readDb d with
  | some existing => (Except.ok existing, writeDb, rng)
  | none =>
    match pick_new_verse readDb rng with
    | Except.error e => (Except.error e, writeDb, rng)
    | Except.ok (v, rng') =>
      match insertSelection writeDb ⟨d, v.id⟩ with
      | Except.error e => (Except.error e, writeDb, rng')
      | Except.ok db' => (Except.ok ⟨d, v.id⟩, db', rng')

/-- `VerseSelector.get_for_date` run sequentially (no interleaved writer). -/
def get_for_date (db : Db) (rng : Rng) (d : Nat) :
    Except SelErr DailySelection × Db × Rng :=
  get_for_date_core db db rng d

/-- A sequence of `resolve` calls against one session: returns the verse id
of each successful call (errors are recorded and leave the state unchanged,
as the raised exception does). -/
def runResolveSt (db : Db) (rng : Rng) : List Nat → List (Except SelErr Nat) × Db × Rng
  | [] => ([], db, rng)
  | d :: ds =>
    let t := get_for_date db rng d
    let rest := runResolveSt t.2.1 t.2.2 ds
    (t.1.map (fun s => s.verse_id) :: rest.1, rest.2)

/-- `seed or settings.seed` (selection.py line 21): Python `or` takes the
right operand when the left is falsy, i.e. `None` or `0`. -/
def effectiveSeed (seed : Option Int) (settingsSeed : Option Int) : Option Int :=
  match seed with
  | some s => if s = 0 then settingsSeed else some s
  | none => settingsSeed

/-- Deterministic stand-in for the stream of an explicitly seeded
`random.Random(s)` (Mersenne Twister; library code outside the repository —
only that the stream is a function of the seed matters). -/
def mtStream (s : Int) : Nat → Nat :=
  fun n => (s.natAbs * 2 + (if s < 0 then 1 else 0) + n + 1) * 2654435761 % 4294967296

/-- `random.Random(eff)`: a seeded source gets the seed-determined stream; an
unseeded one (`eff = none`) gets the environment's entropy stream. -/
def mkRandom (eff : Option Int) (entropy : Nat → Nat) : Rng :=
  { stream :=
      match eff with
      | some s => mtStream s
      | none => entropy
    idx := 0 }

/-- `self.random = random.Random(seed or settings.seed)` (selection.py
line 21, config.py line 9): the random source of a freshly constructed
`VerseSelector`. -/
def selectorRng (seed : Option Int) (settingsSeed : Option Int) (entropy : Nat → Nat) : Rng :=
  mkRandom (effectiveSeed seed settingsSeed) entropy

/-! ### Basic lemmas about the store queries -/

lemma mem_candidates {db : Db} {v : Verse} :
    v ∈ candidates db ↔ v ∈ db.verses ∧ v.id ∉ usedIds db := by
  simp [candidates, List.mem_filter]

lemma candidates_subset_verses (db : Db) : candidates db ⊆ db.verses :=
  fun _ hv => (mem_candidates.mp hv).1

lemma mem_filteredCands {db : Db} {v : Verse} :
    v ∈ filteredCands db ↔ v ∈ candidates db ∧ some (v.book, v.chapter) ≠ lastChapter db := by
  simp [filteredCands, List.mem_filter]

lemma pool_subset (db : Db) : pool db ⊆ candidates db := by
  unfold pool
  split
  · exact fun _ h => h
  · exact fun v hv => (mem_filteredCands.mp hv).1

lemma pool_ne_nil {db : Db} (h : candidates db ≠ []) : pool db ≠ [] := by
  unfold pool
  split
  · exact h
  · rename_i hne
    intro h0
    rw [h0] at hne
    simp at hne

lemma rngChoice_some_inv {α : Type} {r r' : Rng} {l : List α} {a : α}
    (h : rngChoice r l = some (a, r')) :
    a ∈ l ∧ r' = ⟨r.stream, r.idx + 1⟩ := by
  cases l with
  | nil => simp [rngChoice] at h
  | cons x xs =>
    have h' := Option.some.inj h
    have h1 : (x :: xs).getD (r.stream r.idx % (x :: xs).length) x = a :=
      congrArg Prod.fst h'
    have h2 : ({ r with idx := r.idx + 1 } : Rng) = r' := congrArg Prod.snd h'
    constructor
    · rw [← h1]
      have hlen : r.stream r.idx % (x :: xs).length < (x :: xs).length :=
        Nat.mod_lt _ (by simp)
      rw [List.getD_eq_getElem _ _ hlen]
      exact List.getElem_mem hlen
    · rw [← h2]

lemma rngChoice_ne_nil {α : Type} (r : Rng) {l : List α} (h : l ≠ []) :
    ∃ a r', rngChoice r l = some (a, r') := by
  cases l with
  | nil => exact absurd rfl h
  | cons x xs => exact ⟨_, _, rfl⟩

lemma findVerse_mem {db : Db} {v : Verse} (h : v ∈ db.verses) :
    ∃ w, findVerse db v.id = some w ∧ w.id = v.id ∧ w ∈ db.verses := by
  cases hf : findVerse db v.id with
  | none =>
    have := List.find?_eq_none.mp hf v h
    simp at this
  | some w =>
    refine ⟨w, rfl, ?_, List.mem_of_find?_eq_some hf⟩
    have := List.find?_some hf
    simpa using this

lemma findVerse_nodup {db : Db} (hnd : (db.verses.map (fun v => v.id)).Nodup)
    {v : Verse} (h : v ∈ db.verses) : findVerse db v.id = some v := by
  obtain ⟨w, hf, hid, hw⟩ := findVerse_mem h
  have : w = v := List.inj_on_of_nodup_map hnd hw h hid
  rw [hf, this]

/-! ### Characterisation of `_pick_new_verse` -/

lemma pick_new_verse_ok_char {db : Db} {rng rng' : Rng} {v : Verse}
    (h : pick_new_verse db rng = Except.ok (v, rng')) :
    ∃ c ∈ pool db, findVerse db c.id = some v ∧ rng' = ⟨rng.stream, rng.idx + 1⟩ := by
  unfold pick_new_verse at h
  split at h
  · exact absurd h (by simp)
  · rename_i hne
    cases hc : rngChoice rng (pool db) with
    | none => rw [hc] at h; exact absurd h (by simp)
    | some p =>
      obtain ⟨c, r'⟩ := p
      rw [hc] at h
      obtain ⟨hcmem, hr'⟩ := rngChoice_some_inv hc
      cases hv : findVerse db c.id with
      | none =>
        simp only [hv] at h
        exact absurd h (by simp)
      | some w =>
        simp only [hv] at h
        have hw : w = v := congrArg Prod.fst (Except.ok.inj h)
        have hrr : r' = rng' := congrArg Prod.snd (Except.ok.inj h)
        exact ⟨c, hcmem, by rw [hv, hw], by rw [← hrr, hr']⟩

lemma pick_new_verse_fresh {db : Db} {rng rng' : Rng} {v : Verse}
    (h : pick_new_verse db rng = Except.ok (v, rng')) :
    v ∈ db.verses ∧ v.id ∉ usedIds db ∧ v.id ∈ (candidates db).map (fun w => w.id) := by
  obtain ⟨c, hcmem, hfv, _⟩ := pick_new_verse_ok_char h
  have hid : v.id = c.id := by simpa using List.find?_some hfv
  have hcand : c ∈ candidates db := pool_subset db hcmem
  refine ⟨List.mem_of_find?_eq_some hfv, ?_, ?_⟩
  · rw [hid]
    exact (mem_candidates.mp hcand).2
  · rw [hid]
    exact List.mem_map_of_mem _ hcand

lemma pick_new_verse_mem_pool {db : Db} (hnd : (db.verses.map (fun v => v.id)).Nodup)
    {rng rng' : Rng} {v : Verse}
    (h : pick_new_verse db rng = Except.ok (v, rng')) : v ∈ pool db := by
  obtain ⟨c, hcmem, hfv, _⟩ := pick_new_verse_ok_char h
  have hcv : c ∈ db.verses := candidates_subset_verses db (pool_subset db hcmem)
  have : findVerse db c.id = some c := findVerse_nodup hnd hcv
  have hvc : v = c := by
    rw [this] at hfv
    exact (Option.some.inj hfv).symm
  rw [hvc]
  exact hcmem

lemma pick_new_verse_succeeds {db : Db} (rng : Rng) (h : candidates db ≠ []) :
    ∃ v rng', pick_new_verse db rng = Except.ok (v, rng') := by
  unfold pick_new_verse
  rw [if_neg (by simpa [List.isEmpty_iff] using h)]
  obtain ⟨c, r', hc⟩ := rngChoice_ne_nil rng (pool_ne_nil h)
  rw [hc]
  have hcmem : c ∈ db.verses :=
    candidates_subset_verses db (pool_subset db (rngChoice_some_inv hc).1)
  obtain ⟨w, hw, _, _⟩ := findVerse_mem hcmem
  exact ⟨w, r', by simp only [hw]⟩

lemma pick_new_verse_exhausted_iff {db : Db} (rng : Rng) :
    pick_new_verse db rng = Except.error SelErr.exhausted ↔ candidates db = [] := by
  constructor
  · intro h
    by_contra hne
    obtain ⟨v, rng', hok⟩ := pick_new_verse_succeeds rng hne
    rw [hok] at h
    exact absurd h (by simp)
  · intro h
    unfold pick_new_verse
    rw [if_pos (by simp [h])]

/-! ### Characterisation of `get_for_date` -/

lemma get_for_date_hit {db : Db} {rng : Rng} {d : Nat} {sel : DailySelection}
    (h : findSelection db d = some sel) :
    get_for_date db rng d = (Except.ok sel, db, rng) := by
  unfold get_for_date get_for_date_core
  simp only [h]

lemma insertSelection_fresh {db : Db} {d i : Nat} (h : findSelection db d = none) :
    insertSelection db ⟨d, i⟩ =
      Except.ok { db with selections := db.selections ++ [⟨d, i⟩] } := by
  unfold insertSelection
  simp [h]

lemma get_for_date_new {db : Db} {rng rng' : Rng} {d : Nat} {v : Verse}
    (hf : findSelection db d = none) (hp : pick_new_verse db rng = Except.ok (v, rng')) :
    get_for_date db rng d =
      (Except.ok ⟨d, v.id⟩,
       { db with selections := db.selections ++ [⟨d, v.id⟩] }, rng') := by
  unfold get_for_date get_for_date_core
  simp only [hf, hp, insertSelection_fresh hf]

lemma get_for_date_err {db : Db} {rng : Rng} {d : Nat} {e : SelErr}
    (hf : findSelection db d = none) (hp : pick_new_verse db rng = Except.error e) :
    get_for_date db rng d = (Except.error e, db, rng) := by
  unfold get_for_date get_for_date_core
  simp only [hf, hp]

lemma findSelection_append {db : Db} {s : DailySelection} {d : Nat}
    (h : findSelection db d = none) :
    findSelection { db with selections := db.selections ++ [s] } d =
      if s.date = d then some s else none := by
  unfold findSelection at h ⊢
  rw [List.find?_append, h]
  simp [List.find?]
  split <;> simp_all

lemma usedIds_append {db : Db} {s : DailySelection} :
    usedIds { db with selections := db.selections ++ [s] } =
      usedIds db ++ [s.verse_id] := by
  simp [usedIds]

lemma candidates_insert {db : Db} {s : DailySelection} :
    candidates { db with selections := db.selections ++ [s] } =
      (candidates db).filter (fun w => decide (w.id ≠ s.verse_id)) := by
  unfold candidates
  rw [List.filter_filter]
  refine List.filter_congr ?_
  intro v _
  rw [usedIds_append]
  by_cases h1 : v.id = s.verse_id
  · simp [h1, List.mem_append]
  · by_cases h2 : v.id ∈ usedIds db
    · simp [h1, h2, List.mem_append]
    · simp [h1, h2, List.mem_append]

/-- Removing the verses with one present id from a list with pairwise
distinct ids removes exactly one element. -/
lemma filter_ne_id_length : ∀ {l : List Verse} {x : Nat},
    (l.map (fun v => v.id)).Nodup → x ∈ l.map (fun v => v.id) →
    (l.filter (fun w => decide (w.id ≠ x))).length + 1 = l.length := by
  intro l
  induction l with
  | nil => intro x _ hx; simp at hx
  | cons a t ih =>
    intro x hnd hx
    rw [List.map_cons, List.nodup_cons] at hnd
    by_cases hax : a.id = x
    · rw [List.filter_cons, if_neg (by simp [hax])]
      have ht : t.filter (fun w => decide (w.id ≠ x)) = t := by
        refine List.filter_eq_self.mpr ?_
        intro w hw
        have : w.id ∈ t.map (fun v => v.id) := List.mem_map_of_mem _ hw
        have hne : w.id ≠ x := by
          intro he
          exact hnd.1 (by rw [hax, ← he]; exact this)
        simp [hne]
      rw [ht]
      simp
    · have hx' : x ∈ t.map (fun v => v.id) := by
        rw [List.map_cons] at hx
        rcases List.mem_cons.mp hx with h | h
        · exact absurd h.symm hax
        · exact h
      rw [List.filter_cons, if_pos (by simp [hax])]
      have := ih hnd.2 hx'
      simp only [List.length_cons]
      omega

/-! ### Behaviour of a sequence of `resolve` calls over fresh dates -/

lemma runResolveSt_spec :
    ∀ (dates : List Nat) (db : Db) (rng : Rng),
      (db.verses.map (fun v => v.id)).Nodup →
      dates.Nodup →
      (∀ d ∈ dates, findSelection db d = none) →
      dates.length ≤ (candidates db).length →
      ∃ ids : List Nat,
        (runResolveSt db rng dates).1 = ids.map Except.ok ∧
        ids.Nodup ∧
        ids.length = dates.length ∧
        (∀ i ∈ ids, i ∉ usedIds db) ∧
        (runResolveSt db rng dates).2.1.verses = db.verses ∧
        usedIds (runResolveSt db rng dates).2.1 = usedIds db ++ ids ∧
        (candidates (runResolveSt db rng dates).2.1).length + dates.length
            = (candidates db).length ∧
        (∀ d, findSelection db d = none → d ∉ dates →
            findSelection (runResolveSt db rng dates).2.1 d = none) := by
  intro dates
  induction dates with
  | nil =>
    intro db rng _ _ _ _
    exact ⟨[], by simp [runResolveSt], by simp, by simp, by simp,
           rfl, by simp [runResolveSt], by simp [runResolveSt],
           fun d hd _ => by simpa [runResolveSt] using hd⟩
  | cons d ds ih =>
    intro db rng hnd hdn hfresh hlen
    have hfd : findSelection db d = none := hfresh d (by simp)
    have hcne : candidates db ≠ [] := by
      intro h0
      rw [h0] at hlen
      simp at hlen
    obtain ⟨v, rng', hp⟩ := pick_new_verse_succeeds rng hcne
    have hg := get_for_date_new hfd hp
    have hdds : d ∉ ds := (List.nodup_cons.mp hdn).1
    have hdsn : ds.Nodup := (List.nodup_cons.mp hdn).2
    obtain ⟨hvmem, hvfresh, hvid⟩ := pick_new_verse_fresh hp
    -- the store after the successful resolve for `d`
    have hverses' :
        ({ db with selections := db.selections ++ [⟨d, v.id⟩] } : Db).verses
          = db.verses := rfl
    have hnd' :
        (({ db with selections := db.selections ++ [⟨d, v.id⟩] } : Db).verses.map
          (fun v => v.id)).Nodup := hnd
    have hfresh' : ∀ d2 ∈ ds,
        findSelection { db with selections := db.selections ++ [⟨d, v.id⟩] } d2 = none := by
      intro d2 hd2
      have hne : d ≠ d2 := fun he => hdds (he ▸ hd2)
      rw [findSelection_append (hfresh d2 (List.mem_cons_of_mem _ hd2))]
      simp [hne]
    have hcand' :
        candidates { db with selections := db.selections ++ [⟨d, v.id⟩] } =
          (candidates db).filter (fun w => decide (w.id ≠ v.id)) := candidates_insert
    have hcandnd : ((candidates db).map (fun v => v.id)).Nodup :=
      ((List.filter_sublist db.verses).map (fun v => v.id)).nodup hnd
    have hclen :
        (candidates { db with selections := db.selections ++ [⟨d, v.id⟩] }).length + 1
          = (candidates db).length := by
      rw [hcand']
      exact filter_ne_id_length hcandnd hvid
    have hlen' : ds.length ≤
        (candidates { db with selections := db.selections ++ [⟨d, v.id⟩] }).length := by
      have : ds.length + 1 ≤ (candidates db).length := by simpa using hlen
      omega
    obtain ⟨ids, h1, h2, h3, h4, h5, h6, h7, h8⟩ :=
      ih { db with selections := db.selections ++ [⟨d, v.id⟩] } rng' hnd' hdsn hfresh' hlen'
    refine ⟨v.id :: ids, ?_, ?_, ?_, ?_, ?_, ?_, ?_, ?_⟩
    · simp only [runResolveSt, hg]
      rw [h1]
      rfl
    · rw [List.nodup_cons]
      refine ⟨?_, h2⟩
      intro hmem
      have := h4 v.id hmem
      rw [usedIds_append] at this
      simp at this
    · simp [h3]
    · intro i hi
      rcases List.mem_cons.mp hi with h | h
      · rw [h]; exact hvfresh
      · have := h4 i h
        rw [usedIds_append] at this
        intro hin
        exact this (List.mem_append_left _ hin)
    · simp only [runResolveSt, hg]
      exact h5
    · simp only [runResolveSt, hg]
      rw [h6, usedIds_append, List.append_assoc]
      rfl
    · simp only [runResolveSt, hg]
      have := h7
      simp only [List.length_cons]
      omega
    · intro d2 hd2 hd2n
      have hne : d ≠ d2 := fun he => hd2n (by rw [← he]; simp)
      have hd2ds : d2 ∉ ds := fun hin => hd2n (List.mem_cons_of_mem _ hin)
      have hfr' : findSelection { db with selections := db.selections ++ [⟨d, v.id⟩] } d2
          = none := by
        rw [findSelection_append hd2]
        simp [hne]
      simp only [runResolveSt, hg]
      exact h8 d2 hfr' hd2ds

/-- The fold implementing `order_by(DailySelection.date.desc())` returns an
element of maximal date. -/
lemma lastSelection_foldl_max :
    ∀ (l : List DailySelection) (acc : Option DailySelection) (sel : DailySelection),
      l.foldl
        (fun acc s =>
          match acc with
          | none => some s
          | some t => if t.date < s.date then some s else acc) acc = some sel →
      (sel ∈ l ∨ acc = some sel) ∧
      (∀ t ∈ l, t.date ≤ sel.date) ∧
      (∀ a, acc = some a → a.date ≤ sel.date) := by
  intro l
  induction l with
  | nil =>
    intro acc sel h
    rw [List.foldl_nil] at h
    refine ⟨Or.inr h, by simp, ?_⟩
    intro a ha
    rw [ha] at h
    rw [Option.some.inj h]
  | cons s l ih =>
    intro acc sel h
    rw [List.foldl_cons] at h
    obtain ⟨h1, h2, h3⟩ := ih _ sel h
    have hs : s.date ≤ sel.date ∧ (∀ a, acc = some a → a.date ≤ sel.date) := by
      cases acc with
      | none => exact ⟨h3 s rfl, by simp⟩
      | some t =>
        by_cases hlt : t.date < s.date
        · have hss := h3 s (by simp [hlt])
          refine ⟨hss, ?_⟩
          intro a ha
          have hat : a = t := (Option.some.inj ha).symm
          rw [hat]
          omega
        · have htt := h3 t (by simp [hlt])
          refine ⟨by omega, ?_⟩
          intro a ha
          have hat : a = t := (Option.some.inj ha).symm
          rw [hat]
          exact htt
    refine ⟨?_, ?_, hs.2⟩
    · rcases h1 with h1 | h1
      · exact Or.inl (List.mem_cons_of_mem _ h1)
      · cases acc with
        | none =>
          simp only at h1
          exact Or.inl (by rw [← Option.some.inj h1]; exact List.mem_cons_self _ _)
        | some t =>
          by_cases hlt : t.date < s.date
          · simp only [if_pos hlt] at h1
            exact Or.inl (by rw [← Option.some.inj h1]; exact List.mem_cons_self _ _)
          · simp only [if_neg hlt] at h1
            exact Or.inr h1
    · intro t ht
      rcases List.mem_cons.mp ht with ht | ht
      · rw [ht]; exact hs.1
      · exact h2 t ht

/-! ### Concrete sample data used by the witnesses -/

def genesis11 : Verse := ⟨1, "Genesis", 1, 1, "In the beginning"⟩

def genesis12 : Verse := ⟨2, "Genesis", 1, 2, "And the earth was without form"⟩

def genesis21 : Verse := ⟨3, "Genesis", 2, 1, "Thus the heavens"⟩

def exodus11 : Verse := ⟨2, "Exodus", 1, 1, "Now these are the names"⟩

def twoVerseDb : Db := ⟨[genesis11, exodus11], []⟩

def zeroRng : Rng := ⟨fun _ => 0, 0⟩

def outOfOrderDb : Db := ⟨[genesis11, exodus11, genesis21], [⟨5, 1⟩, ⟨3, 2⟩]⟩

/-! ### The claims -/

/-- C1: for a catalog of `N` entries with distinct ids and an empty
assignment history, resolving `N` distinct dates yields `N` successful
Assignments referencing `N` distinct verse ids, and a further resolve on yet
another fresh date fails with the exhaustion error. -/
theorem c1_no_repeat_until_exhaustion
    (verses : List Verse) (dates : List Nat) (dN : Nat) (rng : Rng)
    (hnd : (verses.map (fun v => v.id)).Nodup)
    (hdn : dates.Nodup) (hlen : dates.length = verses.length) (hdN : dN ∉ dates) :
    ∃ ids : List Nat,
      (runResolveSt ⟨verses, []⟩ rng dates).1 = ids.map Except.ok ∧
      ids.Nodup ∧ ids.length = verses.length ∧
      (get_for_date (runResolveSt ⟨verses, []⟩ rng dates).2.1
          (runResolveSt ⟨verses, []⟩ rng dates).2.2 dN).1
        = Except.error SelErr.exhausted := by
  have hfresh : ∀ d ∈ dates, findSelection ⟨verses, []⟩ d = none := by
    intro d _
    rfl
  have hcand0 : candidates ⟨verses, []⟩ = verses := by
    refine List.filter_eq_self.mpr ?_
    intro v _
    simp [usedIds]
  have hlen0 : dates.length ≤ (candidates ⟨verses, []⟩).length := by
    rw [hcand0, hlen]
  obtain ⟨ids, h1, h2, h3, _, _, _, h7, h8⟩ :=
    runResolveSt_spec dates ⟨verses, []⟩ rng hnd hdn hfresh hlen0
  refine ⟨ids, h1, h2, by rw [h3, hlen], ?_⟩
  have hcf : candidates (runResolveSt ⟨verses, []⟩ rng dates).2.1 = [] := by
    rw [← List.length_eq_zero]
    rw [hcand0] at h7
    omega
  have hfN : findSelection (runResolveSt ⟨verses, []⟩ rng dates).2.1 dN = none :=
    h8 dN rfl hdN
  rw [get_for_date_err hfN ((pick_new_verse_exhausted_iff _).mpr hcf)]

/-- Witness for C1 on a two-verse catalog, dates 0 and 1, then 2. -/
theorem c1_witness :
    ∃ ids : List Nat,
      (runResolveSt ⟨[genesis11, exodus11], []⟩ zeroRng [0, 1]).1 = ids.map Except.ok ∧
      ids.Nodup ∧ ids.length = ([genesis11, exodus11] : List Verse).length ∧
      (get_for_date (runResolveSt ⟨[genesis11, exodus11], []⟩ zeroRng [0, 1]).2.1
          (runResolveSt ⟨[genesis11, exodus11], []⟩ zeroRng [0, 1]).2.2 2).1
        = Except.error SelErr.exhausted :=
  c1_no_repeat_until_exhaustion [genesis11, exodus11] [0, 1] 2 zeroRng
    (by decide) (by decide) (by decide) (by decide)

/-- C2: a second `resolve` on the same date returns the very Assignment the
first call produced, with store and random source unchanged from the state
the first call left behind. -/
theorem c2_resolve_idempotent {db : Db} {rng rng' : Rng} {d : Nat}
    {sel : DailySelection} {db' : Db}
    (h : get_for_date db rng d = (Except.ok sel, db', rng')) :
    get_for_date db' rng' d = (Except.ok sel, db', rng') := by
  cases hf : findSelection db d with
  | some s =>
    have hh := (@get_for_date_hit db rng d s hf).symm.trans h
    have hsel : (Except.ok s : Except SelErr DailySelection) = Except.ok sel :=
      congrArg Prod.fst hh
    have hdb : db = db' := congrArg (fun t => t.2.1) hh
    have hrng : rng = rng' := congrArg (fun t => t.2.2) hh
    rw [← hdb, ← hrng, get_for_date_hit hf, hsel]
  | none =>
    cases hp : pick_new_verse db rng with
    | error e =>
      rw [get_for_date_err hf hp] at h
      exact absurd (congrArg Prod.fst h) (by simp)
    | ok p =>
      obtain ⟨v, r2⟩ := p
      rw [get_for_date_new hf hp] at h
      have hsel : (⟨d, v.id⟩ : DailySelection) = sel :=
        Except.ok.inj (congrArg Prod.fst h)
      have hdb : ({ db with selections := db.selections ++ [⟨d, v.id⟩] } : Db) = db' :=
        congrArg (fun t => t.2.1) h
      have hrng : r2 = rng' := congrArg (fun t => t.2.2) h
      have hfind : findSelection db' d = some sel := by
        rw [← hdb, findSelection_append hf]
        simp [hsel]
      rw [get_for_date_hit hfind]

/-- Witness for C2: re-requesting date 0 after it was assigned verse 1. -/
theorem c2_witness :
    get_for_date ⟨[genesis11, exodus11], [⟨0, 1⟩]⟩ ⟨fun _ => 0, 1⟩ 0
      = (Except.ok ⟨0, 1⟩, ⟨[genesis11, exodus11], [⟨0, 1⟩]⟩, ⟨fun _ => 0, 1⟩) :=
  c2_resolve_idempotent
    (show get_for_date twoVerseDb zeroRng 0
        = (Except.ok ⟨0, 1⟩, ⟨[genesis11, exodus11], [⟨0, 1⟩]⟩, ⟨fun _ => 0, 1⟩) from rfl)

/-- C3: on a previously-unassigned date the call fails with the exhaustion
error exactly when the candidate set is empty; on that failure the store and
the random source are unchanged; when candidates exist the call succeeds and
persists a pick. -/
theorem c3_exhaustion_policy {db : Db} (rng : Rng) {d : Nat}
    (hfresh : findSelection db d = none) :
    ((get_for_date db rng d).1 = Except.error SelErr.exhausted ↔ candidates db = []) ∧
    (candidates db = [] →
        get_for_date db rng d = (Except.error SelErr.exhausted, db, rng)) ∧
    (candidates db ≠ [] → ∃ v rng', pick_new_verse db rng = Except.ok (v, rng') ∧
        (get_for_date db rng d).1 = Except.ok ⟨d, v.id⟩) := by
  have hempty : candidates db = [] →
      get_for_date db rng d = (Except.error SelErr.exhausted, db, rng) := by
    intro h
    exact get_for_date_err hfresh ((pick_new_verse_exhausted_iff rng).mpr h)
  have hnon : candidates db ≠ [] →
      ∃ v rng', pick_new_verse db rng = Except.ok (v, rng') ∧
        (get_for_date db rng d).1 = Except.ok ⟨d, v.id⟩ := by
    intro h
    obtain ⟨v, rng', hp⟩ := pick_new_verse_succeeds rng h
    exact ⟨v, rng', hp, by rw [get_for_date_new hfresh hp]⟩
  refine ⟨⟨?_, fun h => by rw [hempty h]⟩, hempty, hnon⟩
  intro h
  by_contra hne
  obtain ⟨v, rng', hp, hok⟩ := hnon hne
  rw [hok] at h
  exact absurd h (by simp)

/-- Witness for C3: a one-verse catalog whose only verse is already used. -/
theorem c3_witness :
    ((get_for_date ⟨[genesis11], [⟨0, 1⟩]⟩ zeroRng 1).1 = Except.error SelErr.exhausted
        ↔ candidates ⟨[genesis11], [⟨0, 1⟩]⟩ = []) ∧
    (candidates ⟨[genesis11], [⟨0, 1⟩]⟩ = [] →
        get_for_date ⟨[genesis11], [⟨0, 1⟩]⟩ zeroRng 1
          = (Except.error SelErr.exhausted, ⟨[genesis11], [⟨0, 1⟩]⟩, zeroRng)) ∧
    (candidates ⟨[genesis11], [⟨0, 1⟩]⟩ ≠ [] →
        ∃ v rng', pick_new_verse ⟨[genesis11], [⟨0, 1⟩]⟩ zeroRng = Except.ok (v, rng') ∧
          (get_for_date ⟨[genesis11], [⟨0, 1⟩]⟩ zeroRng 1).1 = Except.ok ⟨1, v.id⟩) :=
  c3_exhaustion_policy zeroRng rfl

/-- C4: when the max-date Assignment's group is `g` and some candidate lies
outside `g`, the pick succeeds with a verse outside `g` and that verse is
the one persisted for the target date. -/
theorem c4_group_diversity {db : Db} (rng : Rng) {d : Nat} {g : String × Nat}
    (hnd : (db.verses.map (fun v => v.id)).Nodup)
    (hfresh : findSelection db d = none)
    (hlast : lastChapter db = some g)
    (hdiv : ∃ c ∈ candidates db, (c.book, c.chapter) ≠ g) :
    ∃ v rng', pick_new_verse db rng = Except.ok (v, rng') ∧
      (v.book, v.chapter) ≠ g ∧
      get_for_date db rng d =
        (Except.ok ⟨d, v.id⟩,
         { db with selections := db.selections ++ [⟨d, v.id⟩] }, rng') := by
  obtain ⟨c, hcmem, hcg⟩ := hdiv
  have hfc : c ∈ filteredCands db :=
    mem_filteredCands.mpr ⟨hcmem, by simp [hlast, hcg]⟩
  have hfne : filteredCands db ≠ [] := by
    intro h0
    rw [h0] at hfc
    exact absurd hfc (List.not_mem_nil c)
  have hpool : pool db = filteredCands db := by
    unfold pool
    rw [if_neg (by simpa [List.isEmpty_iff] using hfne)]
  have hcne : candidates db ≠ [] := by
    intro h0
    rw [h0] at hcmem
    exact absurd hcmem (List.not_mem_nil c)
  obtain ⟨v, rng', hp⟩ := pick_new_verse_succeeds rng hcne
  have hvf : v ∈ filteredCands db := hpool ▸ pick_new_verse_mem_pool hnd hp
  have hvg : some (v.book, v.chapter) ≠ lastChapter db := (mem_filteredCands.mp hvf).2
  refine ⟨v, rng', hp, ?_, get_for_date_new hfresh hp⟩
  rw [hlast] at hvg
  intro he
  exact hvg (by rw [he])

/-- Witness for C4: Genesis 1 was last used; Exodus 1:1 is available. -/
theorem c4_witness :
    ∃ v rng',
      pick_new_verse ⟨[genesis11, exodus11], [⟨0, 1⟩]⟩ zeroRng = Except.ok (v, rng') ∧
      (v.book, v.chapter) ≠ ("Genesis", 1) ∧
      get_for_date ⟨[genesis11, exodus11], [⟨0, 1⟩]⟩ zeroRng 1 =
        (Except.ok ⟨1, v.id⟩,
         { (⟨[genesis11, exodus11], [⟨0, 1⟩]⟩ : Db) with
             selections := (⟨[genesis11, exodus11], [⟨0, 1⟩]⟩ : Db).selections ++ [⟨1, v.id⟩] },
         rng') :=
  c4_group_diversity zeroRng (by decide) rfl rfl ⟨exodus11, by decide, by decide⟩

/-- C5: when candidates exist but all of them share the last-used group `g`,
the pick still succeeds and returns a verse from `g`, which is persisted. -/
theorem c5_diversity_fallback {db : Db} (rng : Rng) {d : Nat} {g : String × Nat}
    (hnd : (db.verses.map (fun v => v.id)).Nodup)
    (hfresh : findSelection db d = none)
    (hlast : lastChapter db = some g)
    (hcne : candidates db ≠ [])
    (hall : ∀ c ∈ candidates db, (c.book, c.chapter) = g) :
    ∃ v rng', pick_new_verse db rng = Except.ok (v, rng') ∧
      (v.book, v.chapter) = g ∧
      get_for_date db rng d =
        (Except.ok ⟨d, v.id⟩,
         { db with selections := db.selections ++ [⟨d, v.id⟩] }, rng') := by
  obtain ⟨v, rng', hp⟩ := pick_new_verse_succeeds rng hcne
  have hvpool : v ∈ pool db := pick_new_verse_mem_pool hnd hp
  exact ⟨v, rng', hp, hall v (pool_subset db hvpool), get_for_date_new hfresh hp⟩

/-- Witness for C5: only Genesis 1:2 remains and Genesis 1 was last used. -/
theorem c5_witness :
    ∃ v rng',
      pick_new_verse ⟨[genesis11, genesis12], [⟨0, 1⟩]⟩ zeroRng = Except.ok (v, rng') ∧
      (v.book, v.chapter) = ("Genesis", 1) ∧
      get_for_date ⟨[genesis11, genesis12], [⟨0, 1⟩]⟩ zeroRng 1 =
        (Except.ok ⟨1, v.id⟩,
         { (⟨[genesis11, genesis12], [⟨0, 1⟩]⟩ : Db) with
             selections := (⟨[genesis11, genesis12], [⟨0, 1⟩]⟩ : Db).selections ++ [⟨1, v.id⟩] },
         rng') :=
  c5_diversity_fallback zeroRng (by decide) rfl rfl (by decide) (by decide)

/-- C6: the "last-used group" the pick filters against comes from the
Assignment of maximum date among all Assignments (the fold implementing
`order_by date desc`), and the pick persisted for a fresh target date is the
same whatever that date is — in particular for dates earlier than existing
Assignments. -/
theorem c6_last_used_is_max_date (db : Db) (rng : Rng) :
    (∀ sel, lastSelection db = some sel →
        sel ∈ db.selections ∧ ∀ t ∈ db.selections, t.date ≤ sel.date) ∧
    (∀ d v rng', findSelection db d = none →
        pick_new_verse db rng = Except.ok (v, rng') →
        get_for_date db rng d =
          (Except.ok ⟨d, v.id⟩,
           { db with selections := db.selections ++ [⟨d, v.id⟩] }, rng')) := by
  constructor
  · intro sel h
    obtain ⟨h1, h2, _⟩ := lastSelection_foldl_max db.selections none sel h
    rcases h1 with h1 | h1
    · exact ⟨h1, h2⟩
    · exact absurd h1 (by simp)
  · intro d v rng' hf hp
    exact get_for_date_new hf hp

/-- Witness for C6: dates were assigned out of order (5 then 3); the
max-date row is the one for date 5, and resolving the past date 4 persists
the pick computed from that row's group. -/
theorem c6_witness :
    ((⟨5, 1⟩ : DailySelection) ∈ outOfOrderDb.selections ∧
        ∀ t ∈ outOfOrderDb.selections, t.date ≤ (⟨5, 1⟩ : DailySelection).date) ∧
    get_for_date outOfOrderDb zeroRng 4 =
      (Except.ok ⟨4, 3⟩,
       { outOfOrderDb with selections := outOfOrderDb.selections ++ [⟨4, 3⟩] },
       ⟨zeroRng.stream, 1⟩) :=
  ⟨(c6_last_used_is_max_date outOfOrderDb zeroRng).1 ⟨5, 1⟩ rfl,
   (c6_last_used_is_max_date outOfOrderDb zeroRng).2 4 genesis21 ⟨zeroRng.stream, 1⟩ rfl rfl⟩

/-- C7: resolving an already-assigned date is a pure read: the stored
Assignment is returned and both the store and the random source (stream and
cursor alike) are returned unchanged. -/
theorem c7_pure_read {db : Db} {rng : Rng} {d : Nat} {sel : DailySelection}
    (h : findSelection db d = some sel) :
    get_for_date db rng d = (Except.ok sel, db, rng) :=
  get_for_date_hit h

/-- Witness for C7 at an assigned date. -/
theorem c7_witness :
    get_for_date ⟨[genesis11], [⟨0, 1⟩]⟩ zeroRng 0
      = (Except.ok ⟨0, 1⟩, ⟨[genesis11], [⟨0, 1⟩]⟩, zeroRng) :=
  c7_pure_read rfl

/-- C8 (amended): for every nonzero seed `s`, two Selectors constructed with
seed `s` — even over different entropy environments — make identical
sequences of choices on the same store and call sequence.  (A zero seed
falls back to the configured default, `none` by default, i.e. an unseeded
source; see the counterexample.) -/
theorem c8_seed_determinism (s : Int) (settingsSeed : Option Int)
    (e1 e2 : Nat → Nat) (db : Db) (dates : List Nat) (hs : s ≠ 0) :
    runResolveSt db (selectorRng (some s) settingsSeed e1) dates =
    runResolveSt db (selectorRng (some s) settingsSeed e2) dates := by
  have heff : effectiveSeed (some s) settingsSeed = some s := by
    simp only [effectiveSeed]
    rw [if_neg hs]
  unfold selectorRng
  rw [heff]
  rfl

/-- Witness for C8 with seed 7. -/
theorem c8_witness :
    runResolveSt twoVerseDb (selectorRng (some 7) none (fun _ => 0)) [0, 1] =
    runResolveSt twoVerseDb (selectorRng (some 7) none (fun _ => 9)) [0, 1] :=
  c8_seed_determinism 7 none (fun _ => 0) (fun _ => 9) twoVerseDb [0, 1] (by decide)

/-- Counterexample to C8 as stated: with seed `0`, `seed or settings.seed`
discards the seed, the source is unseeded, and two Selectors constructed
with the same seed 0 over different entropy make different choices. -/
theorem c8_counterexample :
    (runResolveSt twoVerseDb (selectorRng (some 0) none (fun _ => 0)) [0]).1 ≠
    (runResolveSt twoVerseDb (selectorRng (some 0) none (fun _ => 1)) [0]).1 := by
  intro h
  have h1 : (runResolveSt twoVerseDb (selectorRng (some 0) none (fun _ => 0)) [0]).1
      = [Except.ok 1] := rfl
  have h2 : (runResolveSt twoVerseDb (selectorRng (some 0) none (fun _ => 1)) [0]).1
      = [Except.ok 2] := rfl
  rw [h, h2] at h1
  simp at h1

/-- C9 (amended): when the write phase finds that an Assignment for the
target date appeared after the read phase (a concurrent insert won the
race), the insert fails with the conflict error and `get_for_date`
propagates it to the caller unchanged — there is no re-read recovery in the
code. -/
theorem c9_conflict_propagates {readDb writeDb : Db} (rng : Rng) {d : Nat}
    (h1 : findSelection readDb d = none)
    (h2 : candidates readDb ≠ [])
    (h3 : (findSelection writeDb d).isSome = true) :
    (get_for_date_core readDb writeDb rng d).1 = Except.error SelErr.conflict := by
  obtain ⟨v, rng', hp⟩ := pick_new_verse_succeeds rng h2
  have hins : insertSelection writeDb ⟨d, v.id⟩ = Except.error SelErr.conflict := by
    unfold insertSelection
    rw [if_pos h3]
  unfold get_for_date_core
  simp only [h1, hp, hins]

/-- Witness for C9 (amended): the racer wrote verse 2 for date 5. -/
theorem c9_witness :
    (get_for_date_core twoVerseDb ⟨[genesis11, exodus11], [⟨5, 2⟩]⟩ zeroRng 5).1
      = Except.error SelErr.conflict :=
  c9_conflict_propagates zeroRng rfl (by decide) rfl

/-- Counterexample to C9 as stated: a concrete interleaving in which the
conflict is surfaced to the caller instead of being recovered by a re-read. -/
theorem c9_counterexample :
    (get_for_date_core twoVerseDb ⟨[genesis11, exodus11], [⟨5, 1⟩]⟩ zeroRng 5).1
      = Except.error SelErr.conflict := rfl

/-- C10: constructing the Selector with seed 0 is the same as constructing
it with no seed: `seed or settings.seed` replaces the falsy 0 by the
configured default, so the effective seed, the random source, and every
subsequent run of resolve calls coincide. -/
theorem c10_zero_seed_ignored (settingsSeed : Option Int) (entropy : Nat → Nat) :
    effectiveSeed (some 0) settingsSeed = settingsSeed ∧
    selectorRng (some 0) settingsSeed entropy = selectorRng none settingsSeed entropy ∧
    ∀ (db : Db) (dates : List Nat),
      runResolveSt db (selectorRng (some 0) settingsSeed entropy) dates =
      runResolveSt db (selectorRng none settingsSeed entropy) dates :=
  ⟨rfl, rfl, fun _ _ => rfl⟩

end KJV
